import Mathlib

/-!
Verification of the imposition engine of `quizcards.py` (double-sided quiz-card
generator).  The definitions below are a shallow embedding of the source:

* lengths are modelled as exact rationals (`ℚ`), the idealisation of the
  source's real-valued point arithmetic; `mm` is reportlab's millimetre in
  points (72 / 25.4);
* Python `int()` applied to a real quantity is truncation toward zero
  (`pyint`);
* Python list slices `l[k::2]` are `pystep2`, the regrouping loop of
  `layout` (lines 284-293) is `superchunks` / `imposeGroups` / `regroupE`;
* the per-group coordinate lists of `layout` (lines 296-304) are
  `frontCoords` / `backCoords`;
* the back-pass margin mutation of `layout` (lines 305-311) is `backPassFix`
  acting on `CardAttrs` (Python instance attributes are `Option ℚ`, the
  class attributes of `Card` being the fallback, 3 mm each);
* fallible Python code (ZeroDivisionError, IndexError, AttributeError) is
  modelled with `Except String`.
-/

namespace Quizcards

/-- reportlab's `mm` unit: one millimetre expressed in points (72 per inch). -/
def mm : ℚ := 72 / 25.4

/-- Python `int()` applied to a real-valued quantity: truncation toward zero. -/
def pyint (q : ℚ) : ℤ := if 0 ≤ q then ⌊q⌋ else ⌈q⌉

/-- Margin record, as built with `Record(lm=..., rm=..., tm=..., bm=...)`. -/
structure Margins where
  lm : ℚ
  rm : ℚ
  tm : ℚ
  bm : ℚ
deriving DecidableEq

/-- `maximize_cards_on_page(cardSize, pageSize, margins=None, autoRotate=False)`
(lines 231-259).  When `margins is None` a zero-margin record is used.  Returns
`(newPageSize, numCardsX, numCardsY)`.  `reverse_seq` applied to a 2-tuple is
the swap. -/
def maximize_cards_on_page (cardSize pageSize : ℚ × ℚ) (margins : Option Margins)
    (autoRotate : Bool) : (ℚ × ℚ) × ℤ × ℤ :=
  let m := margins.getD ⟨0, 0, 0, 0⟩
  let f1 := (pageSize.1 - m.lm - m.rm) / cardSize.1
  let f2 := (pageSize.2 - m.bm - m.tm) / cardSize.2
  let i1 := pyint f1
  let i2 := pyint f2
  let n1 := i1 * i2
  let g1 := (pageSize.1 - m.lm - m.rm) / cardSize.2
  let g2 := (pageSize.2 - m.bm - m.tm) / cardSize.1
  let j1 := pyint g1
  let j2 := pyint g2
  let m1 := j1 * j2
  -- `if autoRotate and m1 > n1: i1, i2 = j1, j2; pageSize = reverse_seq(pageSize);
  --  i1, i2 = i2, i1` — net effect: page swapped, counts (j2, j1)
  let s := if autoRotate ∧ n1 < m1 then ((pageSize.2, pageSize.1), j2, j1)
           else (pageSize, i1, i2)
  -- `if autoRotate and pageSize[0] <= pageSize[1]: if cardSize[0] > cardSize[1]:
  --  i1, i2 = i2, i1`
  if autoRotate ∧ s.1.1 ≤ s.1.2 ∧ cardSize.2 < cardSize.1 then (s.1, s.2.2, s.2.1)
  else s

/-- Python slice `l[::2]` (every other element, starting at the first). -/
def pystep2 : List α → List α
  | [] => []
  | [a] => [a]
  | a :: _ :: t => a :: pystep2 t

/-- The super-chunks of the regrouping loop of `layout` (lines 285-293): the
card sequence is cut at every index that is a positive multiple of `sz`
strictly below its length, the final (possibly short, possibly empty) chunk
always being emitted.  `sz = 0` can only be reached with at most one card
(otherwise Python raises first, see `regroupE`), in which case no cut happens. -/
def superchunks (sz : Nat) (l : List α) : List (List α) :=
  if sz = 0 ∨ l.length ≤ sz then [l]
  else l.take sz :: superchunks sz (l.drop sz)
termination_by l.length
decreasing_by
  simp only [List.length_drop]
  omega

/-- `layout`'s `cardGroups` (lines 285-293): each super-chunk of size
`2*capacity` contributes the pair of groups `cards[k:j:2]` (its even-indexed
elements) and `cards[k+1:j+1:2]` (its odd-indexed elements). -/
def imposeGroups (cards : List α) (sz : Nat) : List (List α) :=
  (superchunks sz cards).flatMap fun s => [pystep2 s, pystep2 s.tail]

/-- The regrouping stage of `layout` with its failure mode: the guard
`j % (2 * i1 * i2) == 0` raises `ZeroDivisionError` when the grid capacity
`c = i1*i2` is zero and at least two cards are enumerated (the modulus is
first evaluated at `j = 1`).  A negative modulus is legal in Python and cuts
at the multiples of its absolute value. -/
def regroupE (cards : List α) (c : ℤ) : Except String (List (List α)) :=
  if c = 0 ∧ 2 ≤ cards.length then .error "ZeroDivisionError"
  else .ok (imposeGroups cards (2 * c).natAbs)

/-- Front-pass coordinates (lines 299-301): rows in reversed index order,
columns left to right. -/
def frontCoords (i1 i2 : Nat) (x0 y0 cw ch : ℚ) : List (ℚ × ℚ) :=
  ((List.range i2).reverse).flatMap fun y =>
    (List.range i1).map fun x : ℕ => (x0 + (x : ℚ) * cw, y0 + (y : ℚ) * ch)

/-- Back-pass coordinates (lines 302-304): rows in reversed index order,
columns right to left. -/
def backCoords (i1 i2 : Nat) (x0 y0 cw ch : ℚ) : List (ℚ × ℚ) :=
  ((List.range i2).reverse).flatMap fun y =>
    ((List.range i1).reverse).map fun x : ℕ => (x0 + (x : ℚ) * cw, y0 + (y : ℚ) * ch)

/-- The mutable margin state of a `Card` object: `lm`/`rm` are the optional
instance attributes (set through the constructor's keyword dict), `payload`
stands for every other attribute (text, width, height, ...), which the
imposition loop never touches. -/
structure CardAttrs (α : Type) where
  lm : Option ℚ
  rm : Option ℚ
  payload : α
deriving DecidableEq

/-- Class attribute `Card.lm = 3 * mm` (line 127), the fallback when the
instance attribute was deleted. -/
def classLm : ℚ := 3 * mm

/-- Class attribute `Card.rm = 3 * mm` (line 127). -/
def classRm : ℚ := 3 * mm

/-- Effective left margin: Python attribute lookup, instance first, class
attribute as fallback. -/
def effLm (c : CardAttrs α) : ℚ := c.lm.getD classLm

/-- Effective right margin. -/
def effRm (c : CardAttrs α) : ℚ := c.rm.getD classRm

/-- Back-pass margin mutation of `layout` (lines 308-311):
`if hasattr(obj, "lm"): obj.rm = obj.lm; delattr(obj, "lm")`.
`hasattr` is always true (the class defines `lm`), the assignment copies the
effective left margin into `rm`, and `delattr` removes the *instance*
attribute — raising `AttributeError` when only the class attribute exists. -/
def backPassFix (c : CardAttrs α) : Except String (CardAttrs α) :=
  let c1 : CardAttrs α := { c with rm := some (effLm c) }
  match c1.lm with
  | some _ => .ok { c1 with lm := none }
  | none => .error "AttributeError"

/-- Python list indexing `l[i]`: negative indices count from the end; `none`
is an `IndexError`. -/
def pyIndex (l : List β) (i : ℤ) : Option β :=
  if 0 ≤ i then l[i.toNat]?
  else if 0 ≤ (l.length : ℤ) + i then l[((l.length : ℤ) + i).toNat]? else none

/-- Placement of one card (lines 307-316): back-pass margin fix first, then
`coords[j % (i1 * i2)]` — `ZeroDivisionError` when the capacity is zero,
`IndexError` when the (possibly negative) coordinate list index is out of
range.  (The informational size label and the actual drawing are pure page
output and are not modelled.) -/
def placeOne (coords : List (ℚ × ℚ)) (cap : ℤ) (g j : Nat) (card : CardAttrs α) :
    Except String (CardAttrs α × ℚ × ℚ) := do
  let card ← if g % 2 ≠ 0 then backPassFix card else .ok card
  if cap = 0 then .error "ZeroDivisionError"
  else
    match pyIndex coords (Int.fmod (j : ℤ) cap) with
    | none => .error "IndexError"
    | some xy => .ok (card, xy)

/-- The `while j < len(cardGroup)` placement loop (lines 305-317). -/
def placeGroup (coords : List (ℚ × ℚ)) (cap : ℤ) (g : Nat) :
    Nat → List (CardAttrs α) → Except String (List (CardAttrs α × ℚ × ℚ))
  | _, [] => .ok []
  | j, card :: rest => do
    let p ← placeOne coords cap g j card
    let ps ← placeGroup coords cap g (j + 1) rest
    .ok (p :: ps)

/-- The `for g, cardGroup in enumerate(cardGroups)` loop (lines 296-320):
even groups use the front-pass coordinates, odd groups the mirrored ones. -/
def placeGroups (i1 i2 : ℤ) (x0 y0 cw ch : ℚ) (cap : ℤ) :
    Nat → List (List (CardAttrs α)) → Except String (List (List (CardAttrs α × ℚ × ℚ)))
  | _, [] => .ok []
  | g, grp :: rest => do
    let coords := if g % 2 = 0 then frontCoords i1.toNat i2.toNat x0 y0 cw ch
                  else backCoords i1.toNat i2.toNat x0 y0 cw ch
    let placed ← placeGroup coords cap g 0 grp
    let others ← placeGroups i1 i2 x0 y0 cw ch cap (g + 1) rest
    .ok (placed :: others)

/-- The fixed margins `nppm` of `layout` (line 276). -/
def nppm : Margins := ⟨7.21 * mm, 7.21 * mm, 15.1 * mm, 15.1 * mm⟩

/-- `layout(path, cards, pageSize, cardSize, autoRotate, ...)` (lines 272-322),
stripped of the pure drawing output: grid fitting with the fixed `nppm`
margins, duplex regrouping, and per-card placement.  Returns the placed sheet
groups or the first Python error raised. -/
def layoutE (cards : List (CardAttrs α)) (pageSize cardSize : ℚ × ℚ)
    (autoRotate : Bool) : Except String (List (List (CardAttrs α × ℚ × ℚ))) :=
  let res := maximize_cards_on_page cardSize pageSize (some nppm) autoRotate
  let ps := res.1
  let i1 := res.2.1
  let i2 := res.2.2
  let cap := i1 * i2
  match regroupE cards cap with
  | .error e => .error e
  | .ok groups =>
    let x0 := ps.1 / 2 - (i1 : ℚ) * cardSize.1 / 2
    let y0 := ps.2 / 2 - (i2 : ℚ) * cardSize.2 / 2
    placeGroups i1 i2 x0 y0 cardSize.1 cardSize.2 cap 0 groups

/-- The paragraph styles in play for the deck builder (`h1`, `bt`, `fine`,
`code` in the source). -/
inductive StyleName where
  | title
  | bodyText
  | fineStyle
  | codeStyle
deriving DecidableEq

/-- ReportLab platypus flowables as the deck builder sees them. -/
inductive Flowable where
  | Paragraph (text : String) (style : StyleName)
  | XPre (text : String) (style : StyleName)
deriving DecidableEq

/-- The generator body of `make_cards_platypus` (lines 387-404): at each item
the *previously prepared* question/answer stories are emitted, then the
labelled stories for the current item are prepared; a final yield flushes the
last pair.  `i` is the 0-based `enumerate` index. -/
def qaSides : Nat → List Flowable → List Flowable → List (Flowable × Flowable) →
    List (List Flowable × List Flowable)
  | _, questions, answers, [] => [(questions, answers)]
  | i, questions, answers, (q, a) :: rest =>
    (questions, answers) ::
      qaSides (i + 1) [.Paragraph "Question:" .fineStyle, q]
        [.Paragraph ("Answer " ++ toString (i + 1) ++ ":<br/><br/>") .fineStyle, a]
        rest

/-- `make_cards_platypus(cardSize, cover, items)` (lines 370-404), projected
onto the text content of the emitted `(q_side, a_side)` pairs: the first pair
carries the cover with an empty answer side. -/
def make_cards_platypus (cover : List Flowable) (items : List (Flowable × Flowable)) :
    List (List Flowable × List Flowable) :=
  qaSides 0 cover [] items

/-- `make_cards_file`'s flattening `cards += [q, a]` (lines 411-413): the face
sequence handed to `layout`. -/
def deckFaces (pairs : List (List Flowable × List Flowable)) : List (List Flowable) :=
  pairs.flatMap fun p => [p.1, p.2]

/-- One flowable of a card story together with its natural wrapped height at
the bounded width. -/
structure FlowItem (α : Type) where
  content : α
  height : ℚ
deriving DecidableEq

/-- Modelled from the spec: the `mode="shrink"` fitting pass of the
`KeepInFrame` flowable that `QuizCard.draw` (lines 214-226) delegates to; the
flowable itself lives in the external reportlab library, not in this
repository's sources.  Per §4.2: if the summed natural height fits, items are
kept at natural size; otherwise every item is scaled by the single global
factor `boundedHeight / naturalTotal`. -/
def keepInFrameShrink (story : List (FlowItem α)) (boundedHeight : ℚ) :
    List (FlowItem α) :=
  let naturalTotal := (story.map (·.height)).sum
  if naturalTotal ≤ boundedHeight then story
  else story.map fun it => ⟨it.content, it.height * (boundedHeight / naturalTotal)⟩

/-! ### List helper lemmas -/

theorem pystep2_getElem (l : List α) (j : ℕ) : (pystep2 l)[j]? = l[2 * j]? := by
  match l with
  | [] => simp [pystep2]
  | [a] =>
    match j with
    | 0 => rfl
    | j + 1 =>
      show ([a] : List α)[j + 1]? = _
      rw [List.getElem?_eq_none (by simp), List.getElem?_eq_none (by simp; omega)]
  | a :: b :: t =>
    match j with
    | 0 => simp [pystep2]
    | j + 1 =>
      rw [show pystep2 (a :: b :: t) = a :: pystep2 t from rfl,
        List.getElem?_cons_succ, pystep2_getElem t j,
        show 2 * (j + 1) = (2 * j + 1) + 1 by ring,
        List.getElem?_cons_succ, List.getElem?_cons_succ]

theorem pystep2_length (l : List α) : (pystep2 l).length = (l.length + 1) / 2 := by
  match l with
  | [] => simp [pystep2]
  | [a] => simp [pystep2]
  | a :: b :: t =>
    rw [show pystep2 (a :: b :: t) = a :: pystep2 t from rfl,
      List.length_cons, pystep2_length t]
    simp only [List.length_cons]
    omega

theorem flatMapPairs_length (L : List β) (f g : β → List γ) :
    (L.flatMap fun s => [f s, g s]).length = 2 * L.length := by
  induction L with
  | nil => rfl
  | cons s L ih =>
    rw [List.flatMap_cons, List.length_append, ih]
    simp only [List.length_cons, List.length_nil]
    omega

theorem flatMapPairs_getElem_even (L : List β) (f g : β → List γ) (k : ℕ) :
    (L.flatMap fun s => [f s, g s])[2 * k]? = (L[k]?).map f := by
  induction L generalizing k with
  | nil => simp
  | cons s L ih =>
    rw [List.flatMap_cons]
    cases k with
    | zero => simp
    | succ k =>
      simp only [List.cons_append, List.nil_append]
      rw [show 2 * (k + 1) = (2 * k + 1) + 1 by ring,
        List.getElem?_cons_succ, List.getElem?_cons_succ, ih, List.getElem?_cons_succ]

theorem flatMapPairs_getElem_odd (L : List β) (f g : β → List γ) (k : ℕ) :
    (L.flatMap fun s => [f s, g s])[2 * k + 1]? = (L[k]?).map g := by
  induction L generalizing k with
  | nil => simp
  | cons s L ih =>
    rw [List.flatMap_cons]
    cases k with
    | zero => simp
    | succ k =>
      simp only [List.cons_append, List.nil_append]
      rw [show 2 * (k + 1) + 1 = (2 * k + 1 + 1) + 1 by ring,
        List.getElem?_cons_succ, List.getElem?_cons_succ, ih, List.getElem?_cons_succ]

theorem superchunks_eq (sz : ℕ) (l : List α) :
    superchunks sz l = if sz = 0 ∨ l.length ≤ sz then [l]
      else l.take sz :: superchunks sz (l.drop sz) := by
  rw [superchunks]

/-! ### C4, C5, C10: the Grid Fitter -/

/-- C4 (amended): with `allowRotate=false` and margins that fit within the
page (non-negative usable area), `maximize_cards_on_page` returns the page
size unchanged together with `cols = ⌊usableWidth / cardWidth⌋` and
`rows = ⌊usableHeight / cardHeight⌋`, hence yield
`⌊usableWidth/cardWidth⌋ * ⌊usableHeight/cardHeight⌋` exactly. -/
theorem grid_fitter_no_rotate (cardSize pageSize : ℚ × ℚ) (m : Margins)
    (hcw : 0 < cardSize.1) (hch : 0 < cardSize.2)
    (hw : 0 ≤ pageSize.1 - m.lm - m.rm) (hh : 0 ≤ pageSize.2 - m.tm - m.bm) :
    maximize_cards_on_page cardSize pageSize (some m) false =
      (pageSize, ⌊(pageSize.1 - m.lm - m.rm) / cardSize.1⌋,
        ⌊(pageSize.2 - m.tm - m.bm) / cardSize.2⌋) := by
  unfold maximize_cards_on_page
  simp only [Option.getD_some, Bool.false_eq_true, false_and, if_false]
  have h2 : pageSize.2 - m.bm - m.tm = pageSize.2 - m.tm - m.bm := by ring
  rw [h2]
  unfold pyint
  rw [if_pos (div_nonneg hw hcw.le), if_pos (div_nonneg hh hch.le)]

/-- C4 witness for the amended theorem: a 10×10 page with zero margins packs
a 2×2 grid of 4×4 cards. -/
theorem grid_fitter_no_rotate_witness :
    maximize_cards_on_page (4, 4) (10, 10) (some ⟨0, 0, 0, 0⟩) false =
      ((10, 10), ⌊((10 : ℚ) - 0 - 0) / 4⌋, ⌊((10 : ℚ) - 0 - 0) / 4⌋) :=
  grid_fitter_no_rotate (4, 4) (10, 10) ⟨0, 0, 0, 0⟩ (by norm_num) (by norm_num)
    (by norm_num) (by norm_num)

/-- C4 counterexample: when the margins exceed the page width the quotient is
negative and Python's `int()` truncates toward zero, so the returned `cols`
is `0` while the mathematical floor is `-1`: the claim's `cols = floor(...)`
fails as universally stated. -/
theorem grid_fitter_floor_counterexample :
    (maximize_cards_on_page (4, 4) (10, 10) (some ⟨8, 5, 0, 0⟩) false).2.1 = 0 ∧
    ⌊((10 : ℚ) - 8 - 5) / 4⌋ = -1 ∧ (0 : ℤ) ≠ -1 := by
  refine ⟨?_, by norm_num [Int.floor_eq_iff], by decide⟩
  unfold maximize_cards_on_page pyint
  norm_num [Int.ceil_eq_iff]

/-- C5: the yield returned with `autoRotate=true` is at least the yield
returned with `autoRotate=false`, for every card size, page size and margin
record (also the defaulted one). -/
theorem rotation_yield_monotone (cardSize pageSize : ℚ × ℚ) (margins : Option Margins) :
    (maximize_cards_on_page cardSize pageSize margins false).2.1 *
      (maximize_cards_on_page cardSize pageSize margins false).2.2 ≤
    (maximize_cards_on_page cardSize pageSize margins true).2.1 *
      (maximize_cards_on_page cardSize pageSize margins true).2.2 := by
  unfold maximize_cards_on_page
  simp only [Bool.false_eq_true, false_and, if_false, true_and]
  split_ifs with h1 h2 h3
  · exact h1.le
  · exact (h1.trans_eq (mul_comm _ _)).le
  · exact (mul_comm _ _).le
  · exact le_rfl

/-- C10: calling the Grid Fitter without a margins record behaves exactly as
with an all-zero margin record, and with `autoRotate=false` the counts are the
truncated quotients of the full page dimensions by the card dimensions. -/
theorem margins_default_zero (cardSize pageSize : ℚ × ℚ) (r : Bool) :
    maximize_cards_on_page cardSize pageSize none r =
      maximize_cards_on_page cardSize pageSize (some ⟨0, 0, 0, 0⟩) r ∧
    (maximize_cards_on_page cardSize pageSize none false).2.1 =
      pyint (pageSize.1 / cardSize.1) ∧
    (maximize_cards_on_page cardSize pageSize none false).2.2 =
      pyint (pageSize.2 / cardSize.2) := by
  refine ⟨rfl, ?_, ?_⟩ <;>
  · unfold maximize_cards_on_page
    simp only [Option.getD_none, Bool.false_eq_true, false_and, if_false]
    norm_num

/-! ### C2: mirrored placement coordinates -/

theorem flat_grid_getElem (ys : List β) (g : β → List γ) (m : ℕ)
    (hg : ∀ y, (g y).length = m) (q r : ℕ) (hr : r < m) :
    (ys.flatMap g)[q * m + r]? = (ys[q]?).bind fun y => (g y)[r]? := by
  induction ys generalizing q with
  | nil => simp
  | cons y ys ih =>
    rw [List.flatMap_cons]
    cases q with
    | zero =>
      rw [Nat.zero_mul, Nat.zero_add, List.getElem?_append_left (by rw [hg y]; exact hr)]
      simp
    | succ q =>
      rw [show (q + 1) * m + r = m + (q * m + r) by ring,
        List.getElem?_append_right (by rw [hg y]; exact Nat.le_add_right m _),
        hg y, Nat.add_sub_cancel_left, ih q, List.getElem?_cons_succ]

theorem reverse_range_getElem (n q : ℕ) (hq : q < n) :
    ((List.range n).reverse)[q]? = some (n - 1 - q) := by
  rw [List.getElem?_reverse (by simpa using hq), List.length_range,
    List.getElem?_range (by omega)]

theorem frontCoords_getElem (i1 i2 r c : ℕ) (x0 y0 cw ch : ℚ)
    (hr : r < i2) (hc : c < i1) :
    (frontCoords i1 i2 x0 y0 cw ch)[r * i1 + c]? =
      some (x0 + (c : ℚ) * cw, y0 + ((i2 - 1 - r : ℕ) : ℚ) * ch) := by
  unfold frontCoords
  rw [flat_grid_getElem _ _ i1
      (fun y => by rw [List.length_map, List.length_range]) r c hc,
    reverse_range_getElem i2 r hr, Option.some_bind, List.getElem?_map,
    List.getElem?_range hc, Option.map_some']

theorem backCoords_getElem (i1 i2 r c : ℕ) (x0 y0 cw ch : ℚ)
    (hr : r < i2) (hc : c < i1) :
    (backCoords i1 i2 x0 y0 cw ch)[r * i1 + c]? =
      some (x0 + ((i1 - 1 - c : ℕ) : ℚ) * cw, y0 + ((i2 - 1 - r : ℕ) : ℚ) * ch) := by
  unfold backCoords
  rw [flat_grid_getElem _ _ i1
      (fun y => by rw [List.length_map, List.length_reverse, List.length_range]) r c hc,
    reverse_range_getElem i2 r hr, Option.some_bind, List.getElem?_map,
    reverse_range_getElem i1 c hc, Option.map_some']

/-- C2: at traversal position `r * cols + c` (row position `r`, column
position `c`), a back-pass group is assigned exactly the cell a front-pass
group assigns to column `cols - 1 - c` of the same row; explicitly, fronts
fill cell `x0 + c*cw` left-to-right while backs fill `x0 + (cols-1-c)*cw`
right-to-left, and both traverse grid rows from the topmost row
(`y0 + (rows-1-r)*ch`, reversed row index order over the bottom-left
origin). -/
theorem back_pass_mirrors_front (i1 i2 r c : ℕ) (x0 y0 cw ch : ℚ)
    (hr : r < i2) (hc : c < i1) :
    (backCoords i1 i2 x0 y0 cw ch)[r * i1 + c]? =
      (frontCoords i1 i2 x0 y0 cw ch)[r * i1 + (i1 - 1 - c)]? ∧
    (frontCoords i1 i2 x0 y0 cw ch)[r * i1 + c]? =
      some (x0 + (c : ℚ) * cw, y0 + ((i2 - 1 - r : ℕ) : ℚ) * ch) ∧
    (backCoords i1 i2 x0 y0 cw ch)[r * i1 + c]? =
      some (x0 + ((i1 - 1 - c : ℕ) : ℚ) * cw, y0 + ((i2 - 1 - r : ℕ) : ℚ) * ch) := by
  refine ⟨?_, frontCoords_getElem i1 i2 r c x0 y0 cw ch hr hc,
    backCoords_getElem i1 i2 r c x0 y0 cw ch hr hc⟩
  rw [backCoords_getElem i1 i2 r c x0 y0 cw ch hr hc,
    frontCoords_getElem i1 i2 r (i1 - 1 - c) x0 y0 cw ch hr (by omega)]

/-- C2 witness: in a 3×2 grid, back-pass position (row 1, column 0) lands on
the cell that the front pass assigns to column 2 of row 1. -/
theorem back_pass_mirrors_front_witness :
    (backCoords 3 2 0 0 10 5)[1 * 3 + 0]? = (frontCoords 3 2 0 0 10 5)[1 * 3 + (3 - 1 - 0)]? ∧
    (frontCoords 3 2 0 0 10 5)[1 * 3 + 0]? = some (0 + (0 : ℚ) * 10, 0 + ((2 - 1 - 1 : ℕ) : ℚ) * 5) ∧
    (backCoords 3 2 0 0 10 5)[1 * 3 + 0]? = some (0 + ((3 - 1 - 0 : ℕ) : ℚ) * 10, 0 + ((2 - 1 - 1 : ℕ) : ℚ) * 5) :=
  back_pass_mirrors_front 3 2 1 0 0 0 10 5 (by decide) (by decide)

/-! ### C1: the duplex pairing invariant -/

theorem imposeGroups_pairing_aux (c : ℕ) (hc : 0 < c) :
    ∀ (n : ℕ) (cards : List α), cards.length ≤ n → 2 ∣ cards.length →
      ∀ k gf gb, (imposeGroups cards (2 * c))[2 * k]? = some gf →
        (imposeGroups cards (2 * c))[2 * k + 1]? = some gb →
        gf.length = gb.length ∧
        ∀ j, j < gf.length →
          gf[j]? = cards[2 * (c * k + j)]? ∧ gb[j]? = cards[2 * (c * k + j) + 1]? := by
  intro n
  induction n with
  | zero =>
    intro cards hle hev k gf gb hgf hgb
    have hnil : cards = [] := List.length_eq_zero.mp (Nat.le_zero.mp hle)
    subst hnil
    have hig : imposeGroups ([] : List α) (2 * c) = [[], []] := by
      rw [imposeGroups, superchunks_eq, if_pos (Or.inr (by simp))]
      simp [pystep2]
    rw [hig] at hgf hgb
    cases k with
    | zero =>
      simp only [Nat.mul_zero, List.getElem?_cons_zero, Nat.zero_add,
        List.getElem?_cons_succ, Option.some.injEq] at hgf hgb
      subst hgf; subst hgb
      exact ⟨rfl, fun j hj => absurd hj (by simp)⟩
    | succ k =>
      rw [List.getElem?_eq_none (by simp only [List.length_cons, List.length_nil]; omega)] at hgf
      exact absurd hgf (by simp)
  | succ n ih =>
    intro cards hle hev k gf gb hgf hgb
    obtain ⟨m, hm⟩ := hev
    by_cases hsz : cards.length ≤ 2 * c
    · have hig : imposeGroups cards (2 * c) = [pystep2 cards, pystep2 cards.tail] := by
        rw [imposeGroups, superchunks_eq, if_pos (Or.inr hsz)]
        simp
      rw [hig] at hgf hgb
      cases k with
      | zero =>
        simp only [Nat.mul_zero, List.getElem?_cons_zero, Nat.zero_add,
          List.getElem?_cons_succ, Option.some.injEq] at hgf hgb
        subst hgf; subst hgb
        constructor
        · rw [pystep2_length, pystep2_length, List.length_tail]
          omega
        · intro j hj
          rw [pystep2_getElem, pystep2_getElem, List.getElem?_tail,
            show 2 * (c * 0 + j) = 2 * j by ring]
          exact ⟨rfl, rfl⟩
      | succ k =>
        rw [List.getElem?_eq_none (by simp only [List.length_cons, List.length_nil]; omega)] at hgf
        exact absurd hgf (by simp)
    · have hig : imposeGroups cards (2 * c) =
          pystep2 (cards.take (2 * c)) :: pystep2 ((cards.take (2 * c)).tail) ::
            imposeGroups (cards.drop (2 * c)) (2 * c) := by
        rw [imposeGroups, superchunks_eq, if_neg (by push_neg; omega)]
        simp [imposeGroups]
      rw [hig] at hgf hgb
      cases k with
      | zero =>
        simp only [Nat.mul_zero, List.getElem?_cons_zero, Nat.zero_add,
          List.getElem?_cons_succ, Option.some.injEq] at hgf hgb
        subst hgf; subst hgb
        have hlen : (cards.take (2 * c)).length = 2 * c := by
          rw [List.length_take]; omega
        constructor
        · rw [pystep2_length, pystep2_length, List.length_tail, hlen]
          omega
        · intro j hj
          have hjc : j < c := by
            rw [pystep2_length, hlen] at hj; omega
          constructor
          · rw [pystep2_getElem, List.getElem?_take, if_pos (by omega),
              show 2 * (c * 0 + j) = 2 * j by ring]
          · rw [pystep2_getElem, List.getElem?_tail, List.getElem?_take,
              if_pos (by omega), show 2 * (c * 0 + j) + 1 = 2 * j + 1 by ring]
      | succ k =>
        rw [show 2 * (k + 1) = (2 * k + 1) + 1 by ring, List.getElem?_cons_succ,
          List.getElem?_cons_succ] at hgf
        rw [show 2 * (k + 1) + 1 = (2 * k + 1 + 1) + 1 by ring, List.getElem?_cons_succ,
          List.getElem?_cons_succ] at hgb
        have hdrop := ih (cards.drop (2 * c)) (by rw [List.length_drop]; omega)
          ⟨m - c, by rw [List.length_drop]; omega⟩ k gf gb hgf hgb
        refine ⟨hdrop.1, fun j hj => ?_⟩
        obtain ⟨h1, h2⟩ := hdrop.2 j hj
        rw [List.getElem?_drop] at h1 h2
        constructor
        · rw [show 2 * (c * (k + 1) + j) = 2 * c + 2 * (c * k + j) by ring]
          exact h1
        · rw [show 2 * (c * (k + 1) + j) + 1 = 2 * c + (2 * (c * k + j) + 1) by ring]
          exact h2

/-- C1: for every even-length face sequence (the faces come in (front, back)
pairs, one pair per card) and every grid of capacity `c = cols*rows > 0`, the
imposer's regrouping succeeds and its sheet groups come in consecutive pairs:
the group list has even length, groups `2k` and `2k+1` have equal length, and
the face at position `j` of group `2k` is the *front* of original pair
`c*k + j` while the face at position `j` of group `2k+1` is the *back* of that
same pair. -/
theorem layout_pairing_invariant (cards : List α) (c : ℕ) (hc : 0 < c)
    (hev : 2 ∣ cards.length) :
    regroupE cards (c : ℤ) = .ok (imposeGroups cards (2 * c)) ∧
    2 ∣ (imposeGroups cards (2 * c)).length ∧
    ∀ k gf gb, (imposeGroups cards (2 * c))[2 * k]? = some gf →
      (imposeGroups cards (2 * c))[2 * k + 1]? = some gb →
      gf.length = gb.length ∧
      ∀ j, j < gf.length →
        gf[j]? = cards[2 * (c * k + j)]? ∧ gb[j]? = cards[2 * (c * k + j) + 1]? := by
  refine ⟨?_, ?_, fun k gf gb hgf hgb =>
    imposeGroups_pairing_aux c hc cards.length cards le_rfl hev k gf gb hgf hgb⟩
  · rw [regroupE, if_neg (by push_neg; intro h; exact absurd (by exact_mod_cast h) hc.ne')]
    congr 1
  · rw [imposeGroups, flatMapPairs_length]
    exact ⟨_, rfl⟩

/-- C1 witness: eight faces (four front/back pairs) on a capacity-2 grid give
four sheet groups, pairing fronts `[0,2]`,`[4,6]` with backs `[1,3]`,`[5,7]`. -/
theorem layout_pairing_invariant_witness :
    regroupE [0, 1, 2, 3, 4, 5, 6, 7] ((2 : ℕ) : ℤ) =
      .ok (imposeGroups [0, 1, 2, 3, 4, 5, 6, 7] (2 * 2)) ∧
    2 ∣ (imposeGroups [0, 1, 2, 3, 4, 5, 6, 7] (2 * 2)).length ∧
    ∀ k gf gb, (imposeGroups [0, 1, 2, 3, 4, 5, 6, 7] (2 * 2))[2 * k]? = some gf →
      (imposeGroups [0, 1, 2, 3, 4, 5, 6, 7] (2 * 2))[2 * k + 1]? = some gb →
      gf.length = gb.length ∧
      ∀ j, j < gf.length →
        gf[j]? = [0, 1, 2, 3, 4, 5, 6, 7][2 * (2 * k + j)]? ∧
        gb[j]? = [0, 1, 2, 3, 4, 5, 6, 7][2 * (2 * k + j) + 1]? :=
  layout_pairing_invariant [0, 1, 2, 3, 4, 5, 6, 7] 2 (by decide) (by decide)

/-! ### C9: the empty face sequence -/

theorem regroupE_nil (α : Type) (cap : ℤ) :
    regroupE ([] : List α) cap = .ok [[], []] := by
  rw [regroupE, if_neg (by simp), imposeGroups, superchunks_eq,
    if_pos (Or.inr (by simp))]
  simp [pystep2]

/-- C9 (amended): an empty card-face sequence does not raise an error, but it
does *not* yield zero sheet groups: the trailing `cardGroups.append` pair of
`layout` runs unconditionally, so the imposer produces exactly two empty
sheet groups (and hence emits two blank pages), for every page size, card
size and rotation setting. -/
theorem empty_deck_two_groups (α : Type) (pageSize cardSize : ℚ × ℚ) (r : Bool) :
    layoutE ([] : List (CardAttrs α)) pageSize cardSize r = .ok [[], []] := by
  simp only [layoutE]
  rw [regroupE_nil]
  rfl

/-- C9 counterexample: with the empty input the regrouping returns two
(empty) sheet groups, not zero, refuting "empty input yields zero
SheetGroups"; no error is raised. -/
theorem empty_deck_counterexample :
    regroupE ([] : List (CardAttrs Unit)) 6 = .ok [[], []] ∧
    ([[], []] : List (List (CardAttrs Unit))).length ≠ 0 :=
  ⟨regroupE_nil (CardAttrs Unit) 6, by decide⟩

/-! ### C7: behaviour when the card does not fit the usable page area -/

/-- Concrete evaluation of the Grid Fitter on a card that is wider than the
usable page area: it returns `cols = 0` (no error). -/
theorem maximize_badgeom_eval :
    maximize_cards_on_page (200, 10) (100, 100) (some nppm) false =
      ((100, 100), 0, 1) := by
  unfold maximize_cards_on_page pyint nppm mm
  norm_num

/-- C7 (amended): when the Grid Fitter computes a grid of capacity
`cols * rows = 0`, it does *not* fail — it returns the non-positive counts
normally — and `layout`, fed a nonempty face sequence, then crashes with an
unstructured `ZeroDivisionError` (the modulus `2 * i1 * i2` respectively
`i1 * i2` is zero), not with a structured `InvalidGeometry` error. -/
theorem invalid_geometry_zero_capacity {α : Type} (cards : List (CardAttrs α))
    (pageSize cardSize : ℚ × ℚ) (r : Bool)
    (hcap : (maximize_cards_on_page cardSize pageSize (some nppm) r).2.1 *
        (maximize_cards_on_page cardSize pageSize (some nppm) r).2.2 = 0)
    (hne : cards ≠ []) :
    layoutE cards pageSize cardSize r = .error "ZeroDivisionError" := by
  simp only [layoutE]
  rw [hcap]
  match cards, hne with
  | [c0], _ =>
    rw [show regroupE [c0] (0 : ℤ) = .ok [[c0], []] by
      rw [regroupE, if_neg (by simp), imposeGroups, superchunks_eq,
        if_pos (Or.inl (by norm_num))]
      simp [pystep2]]
    rfl
  | c0 :: c1 :: rest, _ =>
    rw [show regroupE (c0 :: c1 :: rest) (0 : ℤ) = .error "ZeroDivisionError" by
      rw [regroupE, if_pos ⟨rfl, by simp only [List.length_cons]; omega⟩]]

/-- C7 witness: a 200×10 card on a 100×100 page (usable width ≈ 59.1 < 200,
so `cols = 0`) with one card in the deck makes `layout` fail with
`ZeroDivisionError`. -/
theorem invalid_geometry_zero_capacity_witness :
    layoutE [(⟨some (4 * mm), some (4 * mm), ()⟩ : CardAttrs Unit)]
      (100, 100) (200, 10) false = .error "ZeroDivisionError" :=
  invalid_geometry_zero_capacity _ (100, 100) (200, 10) false
    (by simp [maximize_badgeom_eval]) (by exact List.cons_ne_nil _ _)

/-- C7 counterexample: for that same geometry the Grid Fitter *returns*
`((100,100), 0, 1)` instead of failing, and the error `layout` dies with is a
`ZeroDivisionError`, not the claimed `InvalidGeometry`. -/
theorem invalid_geometry_counterexample :
    maximize_cards_on_page (200, 10) (100, 100) (some nppm) false = ((100, 100), 0, 1) ∧
    layoutE [(⟨some (4 * mm), some (4 * mm), ()⟩ : CardAttrs Unit),
        ⟨some (4 * mm), some (4 * mm), ()⟩] (100, 100) (200, 10) false =
      .error "ZeroDivisionError" ∧
    "ZeroDivisionError" ≠ "InvalidGeometry" := by
  refine ⟨maximize_badgeom_eval, ?_, by decide⟩
  simp only [layoutE]
  rw [show (maximize_cards_on_page (200, 10) (100, 100) (some nppm) false).2.1 *
      (maximize_cards_on_page (200, 10) (100, 100) (some nppm) false).2.2 = 0 by
    simp [maximize_badgeom_eval]]
  rw [show regroupE [(⟨some (4 * mm), some (4 * mm), ()⟩ : CardAttrs Unit),
      ⟨some (4 * mm), some (4 * mm), ()⟩] (0 : ℤ) = .error "ZeroDivisionError" by
    rw [regroupE, if_pos ⟨rfl, by simp⟩]]

/-! ### C8: the back-pass margin mutation -/

/-- C8 (amended): for a card that carries its own (instance) left margin –
every card built by the Deck Builder does – the back-pass mutation sets the
card's right margin to its former effective left margin and *deletes* the
instance left margin, so the left margin falls back to the class default
`3 * mm`; the payload (every other field) is unchanged.  It is not a swap:
the former right-margin value is discarded. -/
theorem back_pass_margin_update {α : Type} (card : CardAttrs α) (v : ℚ)
    (hv : card.lm = some v) :
    backPassFix card = .ok ⟨none, some v, card.payload⟩ ∧
    effRm (⟨none, some v, card.payload⟩ : CardAttrs α) = effLm card ∧
    effLm (⟨none, some v, card.payload⟩ : CardAttrs α) = classLm := by
  obtain ⟨l, rmv, p⟩ := card
  have hl : l = some v := hv
  subst hl
  exact ⟨rfl, rfl, rfl⟩

/-- C8 witness: a card with instance margins `lm = 4mm`, `rm = 5mm` comes out
of the back pass with `rm = 4mm` and its instance `lm` deleted. -/
theorem back_pass_margin_update_witness :
    backPassFix (⟨some (4 * mm), some (5 * mm), ()⟩ : CardAttrs Unit) =
      .ok ⟨none, some (4 * mm), ()⟩ ∧
    effRm (⟨none, some (4 * mm), ()⟩ : CardAttrs Unit) =
      effLm (⟨some (4 * mm), some (5 * mm), ()⟩ : CardAttrs Unit) ∧
    effLm (⟨none, some (4 * mm), ()⟩ : CardAttrs Unit) = classLm :=
  back_pass_margin_update (⟨some (4 * mm), some (5 * mm), ()⟩ : CardAttrs Unit)
    (4 * mm) rfl

/-- C8 counterexample: after the back-pass mutation the card's effective left
margin is the class default `3 * mm`, **not** its former right margin
(`5 * mm` here): the claimed two-sided swap fails on its left-margin half. -/
theorem margin_swap_counterexample :
    backPassFix (⟨some (4 * mm), some (5 * mm), ()⟩ : CardAttrs Unit) =
      .ok ⟨none, some (4 * mm), ()⟩ ∧
    effLm (⟨none, some (4 * mm), ()⟩ : CardAttrs Unit) ≠
      effRm (⟨some (4 * mm), some (5 * mm), ()⟩ : CardAttrs Unit) := by
  refine ⟨rfl, ?_⟩
  rw [effLm, effRm]
  norm_num [classLm, mm]

/-! ### C3: the Deck Builder -/

theorem qaSides_spec (items : List (Flowable × Flowable)) :
    ∀ (start : ℕ) (qs as : List Flowable),
      (qaSides start qs as items).length = items.length + 1 ∧
      (qaSides start qs as items)[0]? = some (qs, as) ∧
      ∀ i q a, items[i]? = some (q, a) →
        (qaSides start qs as items)[i + 1]? =
          some ([.Paragraph "Question:" .fineStyle, q],
            [.Paragraph ("Answer " ++ toString (start + i + 1) ++ ":<br/><br/>")
              .fineStyle, a]) := by
  induction items with
  | nil =>
    intro start qs as
    exact ⟨rfl, rfl, fun i q a h => absurd h (by simp)⟩
  | cons it rest ih =>
    intro start qs as
    obtain ⟨q0, a0⟩ := it
    refine ⟨?_, by simp [qaSides], ?_⟩
    · simp only [qaSides, List.length_cons]
      rw [(ih (start + 1) _ _).1]
    · intro i q a h
      cases i with
      | zero =>
        rw [List.getElem?_cons_zero, Option.some.injEq] at h
        simp only [Prod.mk.injEq] at h
        obtain ⟨rfl, rfl⟩ := h
        simp only [qaSides, List.getElem?_cons_succ]
        exact (ih (start + 1) _ _).2.1
      | succ i =>
        rw [List.getElem?_cons_succ] at h
        simp only [qaSides, List.getElem?_cons_succ]
        rw [show start + (i + 1) + 1 = start + 1 + i + 1 by ring]
        exact (ih (start + 1) _ _).2.2 i q a h

/-- C3: for every cover and ordered item list, the Deck Builder yields exactly
`N + 1` (front, back) pairs in document order: pair 0 is the cover with an
empty back, and pair `i` (1-based) is the labelled question block of item
`i-1` on the front with the answer block labelled with the 1-based number `i`
on the back; flattening the pairs to the face sequence handed to the imposer
gives `2 * (N + 1)` faces. -/
theorem deck_builder_pairs (cover : List Flowable) (items : List (Flowable × Flowable)) :
    (make_cards_platypus cover items).length = items.length + 1 ∧
    (make_cards_platypus cover items)[0]? = some (cover, []) ∧
    (∀ i q a, items[i]? = some (q, a) →
      (make_cards_platypus cover items)[i + 1]? =
        some ([.Paragraph "Question:" .fineStyle, q],
          [.Paragraph ("Answer " ++ toString (i + 1) ++ ":<br/><br/>") .fineStyle, a])) ∧
    (deckFaces (make_cards_platypus cover items)).length = 2 * (items.length + 1) := by
  obtain ⟨h1, h2, h3⟩ := qaSides_spec items 0 cover []
  refine ⟨h1, h2, fun i q a h => ?_, ?_⟩
  · have h4 := h3 i q a h
    rw [show (0 : ℕ) + i + 1 = i + 1 by ring] at h4
    exact h4
  · rw [deckFaces, flatMapPairs_length, make_cards_platypus, h1]

/-- A concrete five-item document (cover plus five question/answer items). -/
def demoCover : List Flowable := [.Paragraph "100 pandas exercises" .title]

/-- The five question/answer items of the concrete document. -/
def demoItems : List (Flowable × Flowable) :=
  [(.Paragraph "q1" .bodyText, .XPre "a1" .codeStyle),
   (.Paragraph "q2" .bodyText, .XPre "a2" .codeStyle),
   (.Paragraph "q3" .bodyText, .XPre "a3" .codeStyle),
   (.Paragraph "q4" .bodyText, .XPre "a4" .codeStyle),
   (.Paragraph "q5" .bodyText, .XPre "a5" .codeStyle)]

/-- C3 witness: the five-item document yields exactly 6 pairs (12 faces),
pair 0 is the cover with an empty back, and pair 3 carries question 3 on the
front and the block labelled "Answer 3" on the back. -/
theorem deck_builder_pairs_witness :
    (make_cards_platypus demoCover demoItems).length = 6 ∧
    (deckFaces (make_cards_platypus demoCover demoItems)).length = 12 ∧
    (make_cards_platypus demoCover demoItems)[0]? = some (demoCover, []) ∧
    (make_cards_platypus demoCover demoItems)[3]? =
      some ([.Paragraph "Question:" .fineStyle, .Paragraph "q3" .bodyText],
        [.Paragraph ("Answer " ++ toString (2 + 1) ++ ":<br/><br/>") .fineStyle,
          .XPre "a3" .codeStyle]) := by
  obtain ⟨h1, h2, h3, h4⟩ := deck_builder_pairs demoCover demoItems
  exact ⟨h1, h4, h2, h3 2 (.Paragraph "q3" .bodyText) (.XPre "a3" .codeStyle) rfl⟩

/-! ### C6: the shrink-to-fit pass -/

/-- C6: when the summed natural height exceeds the bounded height, the shrink
pass keeps every item (same count, same contents in the same order), scales
each item's height by the single global factor
`boundedHeight / naturalTotal`, and the drawn (summed) height equals the
bounded height exactly. -/
theorem shrink_no_loss {α : Type} (story : List (FlowItem α)) (H : ℚ)
    (h0 : 0 ≤ H) (hover : H < (story.map (·.height)).sum) :
    (keepInFrameShrink story H).length = story.length ∧
    (keepInFrameShrink story H).map (·.content) = story.map (·.content) ∧
    (∀ (j : ℕ) (it : FlowItem α), story[j]? = some it →
      (keepInFrameShrink story H)[j]? =
        some (⟨it.content, it.height * (H / (story.map (·.height)).sum)⟩ : FlowItem α)) ∧
    ((keepInFrameShrink story H).map (·.height)).sum = H := by
  have htot : (0 : ℚ) < (story.map (·.height)).sum := lt_of_le_of_lt h0 hover
  have hne' := not_le.mpr hover
  refine ⟨?_, ?_, ?_, ?_⟩
  · simp only [keepInFrameShrink]
    rw [if_neg hne']
    exact List.length_map _ _
  · simp only [keepInFrameShrink]
    rw [if_neg hne', List.map_map]
    rfl
  · intro j it h
    simp only [keepInFrameShrink]
    rw [if_neg hne', List.getElem?_map, h]
    rfl
  · simp only [keepInFrameShrink]
    rw [if_neg hne', List.map_map]
    have hmr : ((·.height) ∘ fun it : FlowItem α =>
        (⟨it.content, it.height * (H / (story.map (·.height)).sum)⟩ : FlowItem α)) =
        fun it : FlowItem α => it.height * (H / (story.map (·.height)).sum) := rfl
    rw [hmr, List.sum_map_mul_right, mul_comm, div_mul_cancel₀ H htot.ne']

/-- C6 witness: two items of natural height 6 against a bounded height of 4
are both kept, each scaled by 4/12, and the drawn height is exactly 4. -/
theorem shrink_no_loss_witness :
    (keepInFrameShrink [(⟨0, 6⟩ : FlowItem ℕ), ⟨1, 6⟩] 4).length = 2 ∧
    (keepInFrameShrink [(⟨0, 6⟩ : FlowItem ℕ), ⟨1, 6⟩] 4).map (·.content) =
      ([(⟨0, 6⟩ : FlowItem ℕ), ⟨1, 6⟩]).map (·.content) ∧
    (keepInFrameShrink [(⟨0, 6⟩ : FlowItem ℕ), ⟨1, 6⟩] 4)[0]? =
      some ⟨0, 6 * (4 / ((([(⟨0, 6⟩ : FlowItem ℕ), ⟨1, 6⟩]).map (·.height)).sum))⟩ ∧
    ((keepInFrameShrink [(⟨0, 6⟩ : FlowItem ℕ), ⟨1, 6⟩] 4).map (·.height)).sum = 4 := by
  obtain ⟨h1, h2, h3, h4⟩ :=
    shrink_no_loss [(⟨0, 6⟩ : FlowItem ℕ), ⟨1, 6⟩] 4 (by norm_num) (by norm_num)
  exact ⟨h1, h2, h3 0 ⟨0, 6⟩ rfl, h4⟩

end Quizcards
